import Mathlib

/-!
# Verification of the KYC Field Extraction & Validation Engine

Shallow embedding of `verificare_documente.py` (functions `parse_id_text`,
`parse_invoice_text_native`, `valid_cnp`, `validate_kyc`) from the
Know_Your_Costumer repository, together with theorems settling the frozen
claims about its specification.

Modelling conventions:
* Python strings are Lean `String` / `List Char`; character classes of
  Python's `re` module (`\s`, `\d`, `\w`) are modelled on the characters
  that actually occur in the patterns and documents (ASCII plus the
  Romanian letters appearing in the patterns).
* Calendar dates are modelled as `Int` (days on a time line); the external
  `dateparser` library is an explicit function parameter
  `dp : String → Option Int` (it returns `None` on unparsable input), and
  the rendering `str(d.date())` is a parameter `iso : Int → String`.
* Python `float` totals are modelled as `ℚ`; the builtin `float : str → float`
  (which raises `ValueError` on non-numeric input, caught by the source)
  is an explicit parameter `pyF : String → Option ℚ`.
* Python exceptions escaping a function are modelled with `Except PyError`;
  a Python function that can fall off its end returns an `Option`.
* Python dicts with string keys are modelled as structures with one
  `Option`-valued field per key the source reads or writes.
-/

namespace KYC

/-- Python exception escaping the modelled code (`AttributeError` from
`None.date()` or `list.strip()`). -/
inductive PyError
  | attributeError
deriving DecidableEq

/-! ## Python whitespace, `str.splitlines`, `str.strip`, `re.sub(r"\s+", " ", ·)` -/

/-- Characters matched by Python's `re` class `\s` (equivalently
`str.isspace`): ASCII whitespace, the C1 separators, and the Unicode
space characters. -/
def isPySpace (c : Char) : Bool :=
  decide (c.toNat ∈ [0x20, 0x09, 0x0a, 0x0b, 0x0c, 0x0d,
    0x1c, 0x1d, 0x1e, 0x1f, 0x85, 0xa0, 0x1680,
    0x2000, 0x2001, 0x2002, 0x2003, 0x2004, 0x2005, 0x2006, 0x2007,
    0x2008, 0x2009, 0x200a, 0x2028, 0x2029, 0x202f, 0x205f, 0x3000])

/-- Characters at which Python's `str.splitlines` breaks a line. -/
def isLineBreak (c : Char) : Bool :=
  decide (c.toNat ∈ [0x0a, 0x0d, 0x0b, 0x0c, 0x1c, 0x1d, 0x1e,
    0x85, 0x2028, 0x2029])

/-- Python `str.splitlines`: split at line-break characters, treating
`"\r\n"` as a single break; no trailing empty line. -/
def pySplitlines : List Char → List (List Char)
  | [] => []
  | c :: cs =>
    if c = '\r' then
      match cs with
      | '\n' :: cs2 => [] :: pySplitlines cs2
      | [] => [[]]
      | d :: cs2 => [] :: pySplitlines (d :: cs2)
    else if isLineBreak c then
      [] :: pySplitlines cs
    else
      match pySplitlines cs with
      | [] => [[c]]
      | l :: ls => (c :: l) :: ls

/-- Helper of `subWs`; the flag records whether the previous character was
part of a whitespace run already replaced by a single `' '`. -/
def subWsAux : Bool → List Char → List Char
  | _, [] => []
  | true, c :: cs =>
    if isPySpace c then subWsAux true cs else c :: subWsAux false cs
  | false, c :: cs =>
    if isPySpace c then ' ' :: subWsAux true cs else c :: subWsAux false cs

/-- Python `re.sub(r"\s+", " ", l)`: collapse each maximal whitespace run
to a single space. -/
def subWs (l : List Char) : List Char := subWsAux false l

/-- Drop trailing Python whitespace (the right half of `str.strip`). -/
def stripEnd : List Char → List Char
  | [] => []
  | c :: cs =>
    match stripEnd cs with
    | [] => if isPySpace c then [] else [c]
    | r => c :: r

/-- Python `str.strip()` with no argument: drop leading and trailing
whitespace. -/
def pyStrip (l : List Char) : List Char := stripEnd (l.dropWhile isPySpace)

/-- Helper of `pyReplace`, structurally recursive on the text: a positive
`skip` count swallows the remaining characters of a pattern occurrence
that was already replaced. -/
def pyRepAux (pat rep : List Char) : Nat → List Char → List Char
  | _, [] => []
  | skip + 1, _ :: cs => pyRepAux pat rep skip cs
  | 0, c :: cs =>
    if pat ≠ [] ∧ (c :: cs).take pat.length = pat then
      rep ++ pyRepAux pat rep (pat.length - 1) cs
    else
      c :: pyRepAux pat rep 0 cs

/-- Python `str.replace(pat, rep)`: replace every non-overlapping
occurrence of `pat`, scanning left to right.  (`pat = []` is never used by
the source; it is mapped to the identity to keep the function total.) -/
def pyReplace (pat rep s : List Char) : List Char :=
  pyRepAux pat rep 0 s

/-- Python `str.replace` on `String`s. -/
def pyReplaceStr (pat rep s : String) : String :=
  (pyReplace pat.data rep.data s.data).asString

/-- Python `"\n".join(lines)`. -/
def joinN : List (List Char) → List Char
  | [] => []
  | l :: ls =>
    match ls with
    | [] => l
    | _ => l ++ '\n' :: joinN ls

/-- The whitespace pre-normalization of `parse_invoice_text_native`:
`[re.sub(r"\s+", " ", l).strip() for l in txt.splitlines() if l.strip()]`. -/
def normLines (cs : List Char) : List (List Char) :=
  ((pySplitlines cs).filter (fun l => !(pyStrip l).isEmpty)).map
    (fun l => pyStrip (subWs l))

/-! ## A backtracking matcher for the source's regular expressions

Each regular expression of the source is hand-compiled into a matcher.
A matcher maps an input suffix to the list of possible
`(consumed text, remaining suffix)` pairs **in Python's backtracking
preference order** (alternatives in written order, greedy
quantifiers longest-first, `?` preferring presence).  `re.search`
is: try each start position left to right, take the first possibility
at the first position with any. -/

/-- A matcher: input suffix to `(consumed, rest)` possibilities in
preference order. -/
abbrev RxM := List Char → List (List Char × List Char)

/-- Lower-casing used for `re.IGNORECASE`: ASCII plus the Romanian `Ă`
occurring in the source's patterns. -/
def lowerCh (c : Char) : Char := if c = 'Ă' then 'ă' else c.toLower

/-- Empty pattern. -/
def rxEps : RxM := fun cs => [([], cs)]

/-- Single character from a class. -/
def rxCls (p : Char → Bool) : RxM := fun cs =>
  match cs with
  | [] => []
  | c :: r => if p c then [([c], r)] else []

/-- Sequencing; backtracks through all combinations, left preference
first. -/
def rxSeq (a b : RxM) : RxM := fun cs =>
  (a cs).flatMap (fun pr => (b pr.2).map (fun qr => (pr.1 ++ qr.1, qr.2)))

/-- Ordered alternation `x|y`. -/
def rxAlt (a b : RxM) : RxM := fun cs => a cs ++ b cs

/-- Greedy option `x?`. -/
def rxOpt (a : RxM) : RxM := fun cs => a cs ++ [([], cs)]

/-- Case-insensitive literal (the pattern text is given lower-case). -/
def rxLits : List Char → RxM
  | [] => rxEps
  | c :: w => rxSeq (rxCls (fun x => lowerCh x = c)) (rxLits w)

/-- Case-insensitive literal from a string. -/
def rxStrCI (w : String) : RxM := rxLits w.data

/-- Greedy `cls*`: consume a maximal run of class characters, offering
shorter runs (down to zero) as backtracking alternatives. -/
def rxClsStar (p : Char → Bool) : RxM := fun cs =>
  let n := (cs.takeWhile p).length
  (List.range (n + 1)).map (fun j => (cs.take (n - j), cs.drop (n - j)))

/-- Greedy `cls+`. -/
def rxClsPlus (p : Char → Bool) : RxM := rxSeq (rxCls p) (rxClsStar p)

/-- `cls{k}`: exactly `k` class characters. -/
def rxClsExact (p : Char → Bool) (k : Nat) : RxM := fun cs =>
  let t := cs.take k
  if t.length = k ∧ t.all p then [(t, cs.drop k)] else []

/-- Greedy `cls{lo,hi}`: from `hi` characters down to `lo`. -/
def rxClsRange (p : Char → Bool) (lo hi : Nat) : RxM := fun cs =>
  (List.range (hi - lo + 1)).flatMap (fun j => rxClsExact p (hi - j) cs)

/-- Greedy `cls{lo,}`: a maximal run of at least `lo` class characters,
backtracking down to `lo`. -/
def rxClsAtLeast (p : Char → Bool) (lo : Nat) : RxM := fun cs =>
  let n := (cs.takeWhile p).length
  if n < lo then []
  else (List.range (n - lo + 1)).map (fun j => (cs.take (n - j), cs.drop (n - j)))

/-- Try a two-group pattern `g1 mid g2` anchored at the current position;
returns Python's preferred `(group 1, group 2)`. -/
def rxAt2 (g1 mid g2 : RxM) (cs : List Char) : Option (List Char × List Char) :=
  ((g1 cs).flatMap (fun a => (mid a.2).flatMap (fun b =>
    (g2 b.2).map (fun q => (a.1, q.1))))).head?

/-- `re.search` for a two-group pattern: first start position wins. -/
def rxFind2 (g1 mid g2 : RxM) : List Char → Option (List Char × List Char)
  | [] => rxAt2 g1 mid g2 []
  | c :: cs =>
    match rxAt2 g1 mid g2 (c :: cs) with
    | some r => some r
    | none => rxFind2 g1 mid g2 cs

/-- `re.search` for a one-group pattern. -/
def rxFind1 (m : RxM) : List Char → Option (List Char)
  | [] => ((m []).map (·.1)).head?
  | c :: cs =>
    match ((m (c :: cs)).map (·.1)).head? with
    | some r => some r
    | none => rxFind1 m cs

/-! ### Character classes of the source's patterns -/

/-- `\w` of Python `re` (ASCII view): letters, digits, underscore. -/
def isWordChar (c : Char) : Bool := c.isAlphanum || c = '_'

/-- `\d` (ASCII decimal digits). -/
def isDig (c : Char) : Bool := c.isDigit

/-- The class `[-./]` separating date components. -/
def isSepDMY (c : Char) : Bool := c = '-' || c = '.' || c = '/'

/-- The class `[:\-]`. -/
def isColonDash (c : Char) : Bool := c = ':' || c = '-'

/-- The class `[:\s]`. -/
def isColonSpace (c : Char) : Bool := c = ':' || isPySpace c

/-- The class `[0-3]`. -/
def in03 (c : Char) : Bool := '0' ≤ c && c ≤ '3'

/-- The class `[0-1]`. -/
def in01 (c : Char) : Bool := c = '0' || c = '1'

/-- `[A-Z]` under `re.IGNORECASE` (ASCII letters). -/
def isAsciiLetter (c : Char) : Bool := c.isAlpha

/-- `\s*`. -/
def ws0 : RxM := rxClsStar isPySpace

/-- `\s+`. -/
def ws1 : RxM := rxClsPlus isPySpace

/-- The date token `[0-3]?\d[-./][0-1]?\d[-./]\d{2,4}` shared by
`RE_EXP` and the invoice-date pattern. -/
def dateTok : RxM :=
  rxSeq (rxOpt (rxCls in03)) (rxSeq (rxCls isDig) (rxSeq (rxCls isSepDMY)
    (rxSeq (rxOpt (rxCls in01)) (rxSeq (rxCls isDig)
      (rxSeq (rxCls isSepDMY) (rxClsRange isDig 2 4))))))

/-- `\s*[:\-]?\s*`, the optional separator after a label. -/
def sepOpt : RxM := rxSeq ws0 (rxSeq (rxOpt (rxCls isColonDash)) ws0)

/-! ## The identity-card patterns (`RE_CNP`, `RE_SERIE`, `RE_NUMAR`, `RE_EXP`) -/

/-- True when the next character does not continue a word (`\b` after a
word character). -/
def bdryAfter : List Char → Bool
  | [] => true
  | d :: _ => !isWordChar d

/-- Scan left to right, attempting `f` at every position whose previous
character is not a word character (the pattern's first character is a word
character, so `\b` holds exactly there). -/
def scanBdry {α : Type} (f : List Char → Option α) : Bool → List Char → Option α
  | _, [] => none
  | pw, c :: cs =>
    match (if pw then none else f (c :: cs)) with
    | some r => some r
    | none => scanBdry f (isWordChar c) cs

/-- `RE_CNP = \b(\d{13})\b` anchored at the current position. -/
def cnpAt (cs : List Char) : Option (List Char) :=
  let t := cs.take 13
  if t.length = 13 ∧ t.all isDig then
    match cs.drop 13 with
    | [] => some t
    | d :: _ => if isWordChar d then none else some t
  else none

/-- `RE_CNP.search`. -/
def findCNP (cs : List Char) : Option (List Char) := scanBdry cnpAt false cs

/-- `RE_SERIE = \bSERIA\s*([A-Z]{1,2})\b` anchored at the current
position; returns group 1. -/
def serieAt (cs : List Char) : Option (List Char) :=
  ((rxStrCI "seria" cs).flatMap (fun a => (ws0 a.2).flatMap (fun b =>
    (rxClsRange isAsciiLetter 1 2 b.2).flatMap (fun g =>
      if bdryAfter g.2 then [g.1] else [])))).head?

/-- `RE_SERIE.search`. -/
def findSerie (cs : List Char) : Option (List Char) := scanBdry serieAt false cs

/-- `RE_NUMAR = \bNR\.?\s*([0-9]{6})\b` anchored at the current position;
returns group 1. -/
def numarAt (cs : List Char) : Option (List Char) :=
  ((rxStrCI "nr" cs).flatMap (fun a =>
    (rxOpt (rxCls (fun c => c = '.')) a.2).flatMap (fun b =>
      (ws0 b.2).flatMap (fun w =>
        (rxClsExact isDig 6 w.2).flatMap (fun g =>
          if bdryAfter g.2 then [g.1] else []))))).head?

/-- `RE_NUMAR.search`. -/
def findNumar (cs : List Char) : Option (List Char) := scanBdry numarAt false cs

/-- The label alternation of
`RE_EXP = (EXPIRĂ|EXPIRARE|VALABIL|VALID UNTIL)[:\s]*(...)`. -/
def expLbl : RxM :=
  rxAlt (rxStrCI "expiră") (rxAlt (rxStrCI "expirare")
    (rxAlt (rxStrCI "valabil") (rxStrCI "valid until")))

/-- `RE_EXP.search`; returns group 2 (the date token). -/
def findExp (cs : List Char) : Option (List Char) :=
  (rxFind2 expLbl (rxClsStar isColonSpace) dateTok cs).map (·.2)

/-- `re.search(r"\bNUME\b", ln, re.I)` as a Boolean. -/
def hasNume (ln : List Char) : Bool :=
  (scanBdry (fun cs => ((rxStrCI "nume" cs).flatMap (fun a =>
    if bdryAfter a.2 then [a.1] else [])).head?) false ln).isSome

/-- `re.search(r"(DOMICILIU|ADRESA|ADDRESS)", ln, re.I)` as a Boolean. -/
def hasDom (ln : List Char) : Bool :=
  (rxFind1 (rxAlt (rxStrCI "domiciliu") (rxAlt (rxStrCI "adresa")
    (rxStrCI "address"))) ln).isSome

/-! ## The field mappings -/

/-- The identity-side dict built by `parse_id_text`.  Python dicts are
open string-keyed maps: `validate_kyc` also reads the key
`"factura_data"` from its `id_fields` argument, so the model carries that
key as well (the extractor never sets it). -/
structure IdDict where
  cnp : Option String := none
  serie : Option String := none
  num : Option Int := none
  expira : Option String := none
  nume : Option String := none
  domiciliu : Option String := none
  factura_data : Option String := none
deriving DecidableEq

/-- The invoice-side dict built by `parse_invoice_text_native`. -/
structure InvDict where
  factura_numar : Option String := none
  factura_data : Option String := none
  total : Option String := none
deriving DecidableEq

/-- Digit run to number (`int(...)` on a digit string). -/
def digitsToNat (l : List Char) : Nat :=
  l.foldl (fun a c => a * 10 + (c.toNat - 48)) 0

/-- Text after the last `':'` (`ln.split(":")[-1]`, used when `':' ∈ ln`). -/
def afterLastColon (l : List Char) : List Char :=
  (l.reverse.takeWhile (fun c => c ≠ ':')).reverse

/-- The value stored for `"nume"`: after-colon text of the label line if
it has a colon, else the next (already stripped) line, else `""`. -/
def numeVal (ln : List Char) (rest : List (List Char)) : String :=
  if ln.contains ':' then (pyStrip (afterLastColon ln)).asString
  else
    match rest with
    | r :: _ => (pyStrip r).asString
    | [] => ""

/-- `parse_id_text(text)`.  Faithful to the source, including its two
slips: the `return out` sits inside the `for` loop, so only the first
non-blank line is examined for the `NUME`/`DOMICILIU` labels and an empty
line list falls off the end of the function (Python `None`, modelled as
`Option.none`); and the no-colon `DOMICILIU` branch evaluates
`lines[i+1:i+3].strip()`, an `AttributeError` on a list. -/
def parse_id_text (dp : String → Option Int) (iso : Int → String)
    (text : String) : Except PyError (Option IdDict) :=
  let cs := text.data
  let o0 : IdDict := {}
  let o1 := match findCNP cs with
    | some t => { o0 with cnp := some t.asString }
    | none => o0
  let o2 := match findSerie cs with
    | some g => { o1 with serie := some (g.map Char.toUpper).asString }
    | none => o1
  let o3 := match findNumar cs with
    | some g => { o2 with num := some (digitsToNat g : Int) }
    | none => o2
  let o4 := match findExp cs with
    | some g =>
      match dp g.asString with
      | some d => { o3 with expira := some (iso d) }
      | none => o3
    | none => o3
  let lines := ((pySplitlines cs).map pyStrip).filter (fun l => !l.isEmpty)
  match lines with
  | [] => .ok none
  | ln :: rest =>
    let o5 := if hasNume ln then { o4 with nume := some (numeVal ln rest) } else o4
    if hasDom ln then
      if ln.contains ':' then
        .ok (some { o5 with domiciliu := some (pyStrip (afterLastColon ln)).asString })
      else .error .attributeError
    else .ok (some o5)

/-! ## The invoice extractor -/

/-- Invoice-number label `(Factura(?:\s+fiscală)?|Invoice)`. -/
def facturaLbl : RxM :=
  rxAlt (rxSeq (rxStrCI "factura") (rxOpt (rxSeq ws1 (rxStrCI "fiscală"))))
    (rxStrCI "invoice")

/-- `\s*(?:nr\.?|no\.?|#)?\s*[:\-]?\s*` between the invoice-number label
and its value. -/
def invNumMid : RxM :=
  rxSeq ws0 (rxSeq (rxOpt (rxAlt
      (rxSeq (rxStrCI "nr") (rxOpt (rxCls (fun c => c = '.'))))
      (rxAlt (rxSeq (rxStrCI "no") (rxOpt (rxCls (fun c => c = '.'))))
        (rxCls (fun c => c = '#'))))) sepOpt)

/-- Invoice-number value `([A-Z]{0,4}\s?\d{3,})` (case-insensitive). -/
def invNumTok : RxM :=
  rxSeq (rxClsRange isAsciiLetter 0 4)
    (rxSeq (rxOpt (rxCls isPySpace)) (rxClsAtLeast isDig 3))

/-- Invoice-date label `(Data\s*(?:emiterii|facturii)?|Date)`. -/
def dataLbl : RxM :=
  rxAlt (rxSeq (rxStrCI "data") (rxSeq ws0
      (rxOpt (rxAlt (rxStrCI "emiterii") (rxStrCI "facturii")))))
    (rxStrCI "date")

/-- Total label `(Total(?:\s+de\s+plată)?|Amount\s+Due)`. -/
def totalLbl : RxM :=
  rxAlt (rxSeq (rxStrCI "total") (rxOpt (rxSeq ws1
      (rxSeq (rxStrCI "de") (rxSeq ws1 (rxStrCI "plată"))))))
    (rxSeq (rxStrCI "amount") (rxSeq ws1 (rxStrCI "due")))

/-- Total value `([0-9]+(?:[.,][0-9]{2})?)`. -/
def amtTok : RxM :=
  rxSeq (rxClsPlus isDig)
    (rxOpt (rxSeq (rxCls (fun c => c = '.' || c = ',')) (rxClsExact isDig 2)))

/-- The three `re.search` calls of `parse_invoice_text_native` over the
whitespace-normalized, newline-joined text. -/
def invoiceExtractCore (dp : String → Option Int) (iso : Int → String)
    (joined : List Char) : InvDict :=
  let o0 : InvDict := {}
  let o1 := match rxFind2 facturaLbl invNumMid invNumTok joined with
    | some g => { o0 with factura_numar := some (pyReplace [' '] [] g.2).asString }
    | none => o0
  let o2 := match rxFind2 dataLbl sepOpt dateTok joined with
    | some g =>
      match dp g.2.asString with
      | some d => { o1 with factura_data := some (iso d) }
      | none => o1
    | none => o1
  match rxFind2 totalLbl sepOpt amtTok joined with
  | some g => { o2 with total := some (pyReplace [',', ' '] ['.'] g.1).asString }
  | none => o2

/-- The whitespace pre-normalization of the invoice text: whitespace runs
collapsed, lines stripped, blank lines dropped, remaining lines joined
with `"\n"`. -/
def normalizeInvoiceText (txt : String) : String :=
  (joinN (normLines txt.data)).asString

/-- `parse_invoice_text_native(txt)`.  Faithful to the source, including
its slips: the total stores `m.group(1)` (the label) rather than the
numeric token, and `.replace(", ", ".")` targets comma-space, not the
decimal comma. -/
def parse_invoice_text_native (dp : String → Option Int) (iso : Int → String)
    (txt : String) : InvDict :=
  invoiceExtractCore dp iso (normalizeInvoiceText txt).data

/-! ## CNP checksum and the rule validator -/

/-- `_CNP_CONST`, the fixed digit weights. -/
def cnpConst : List Nat := [2, 7, 9, 1, 4, 6, 3, 5, 8, 2, 7, 9]

/-- `valid_cnp(cnp)`: `re.fullmatch(r"\d{13}", cnp)` then the weighted
checksum (the source's `not cnp` guard for the empty string is subsumed
by the full-match test). -/
def valid_cnp (cnp : String) : Bool :=
  if cnp.data.length = 13 ∧ cnp.data.all Char.isDigit then
    let ds := cnp.data.map (fun c => c.toNat - 48)
    let s := (List.zipWith (fun a b => a * b) ds cnpConst).sum % 11
    decide ((if s = 10 then 1 else s) = ds.getD 12 0)
  else false

/-- `valid_cnp(id_fields.get("cnp"))`: Python's `None` argument takes the
`not cnp` early `False` exit. -/
def valid_cnp_opt : Option String → Bool
  | none => false
  | some s => valid_cnp s

/-- `exp_date = dateparser.parse(exp_str).date() if exp_str else None`:
Python truthiness makes both a missing key and an empty string yield
`None`; a present, non-empty but unparsable string makes
`dateparser.parse` return `None`, and `.date()` on it raises
`AttributeError`. -/
def parseOptDate (dp : String → Option Int) : Option String → Except PyError (Option Int)
  | none => .ok none
  | some s =>
    if s = "" then .ok none
    else
      match dp s with
      | none => .error .attributeError
      | some d => .ok (some d)

/-- `(not exp_date) or (exp_date < today)` — rule 3's condition. -/
def pyFalsyOrLt (e : Option Int) (today : Int) : Bool :=
  match e with
  | none => true
  | some d => decide (d < today)

/-- `(not fdate) or ((today - fdate) > timedelta(days=maxAge))` — rule 4's
condition. -/
def tooOldB (fd : Option Int) (today maxAge : Int) : Bool :=
  match fd with
  | none => true
  | some d => decide (today - d > maxAge)

/-- Rule 5's body: `float(str(inv_fields.get("total", 0)).replace(",", "."))`
with the `try/except` mapped to `Option`; fires on a conversion error or a
value `≤ 0`. -/
def nonPosB (q : Option ℚ) : Bool :=
  match q with
  | none => true
  | some v => decide (v ≤ 0)

/-- The six failure reasons in rule order. -/
def kycReasons : List String :=
  ["image_blurry", "invalid cnp", "id_expired", "Factura_veche",
   "non_positive_total", "missing_requiered"]

/-- The failure list accumulated by `validate_kyc` once the two date
parses have produced `e` (rule 3) and `fd` (rule 4): one append per
failing rule, in rule order.  Rule 4 reads `id_fields` — the source's
`fdate_str = id_fields.get("factura_data")` — so `fd` comes from the
identity dict. -/
def ruleSegs (pyF : String → Option ℚ) (idf : IdDict) (invf : InvDict)
    (sharp thr : ℚ) (today maxAge : Int) (e fd : Option Int) : List String :=
  (if sharp < thr then ["image_blurry"] else [])
  ++ (if valid_cnp_opt idf.cnp then [] else ["invalid cnp"])
  ++ (if pyFalsyOrLt e today then ["id_expired"] else [])
  ++ (if tooOldB fd today maxAge then ["Factura_veche"] else [])
  ++ (if nonPosB (pyF (pyReplaceStr "," "." (invf.total.getD "0")))
      then ["non_positive_total"] else [])
  ++ (if invf.factura_numar.isNone || invf.factura_data.isNone || invf.total.isNone
      then ["missing_requiered"] else [])

/-- `validate_kyc(id_fields, inv_fields, ci_laplacian_var=..., today=...,
lap_threshold=..., invoice_max_age_days=...)`.  The two `dateparser`
calls can raise (see `parseOptDate`); everything else is pure.  Note the
source's slip kept by the model: rule 4 reads `"factura_data"` from
`id_fields`, not from `inv_fields`. -/
def validate_kyc (dp : String → Option Int) (pyF : String → Option ℚ)
    (id_fields : IdDict) (inv_fields : InvDict)
    (ci_laplacian_var : ℚ) (today : Int)
    (lap_threshold : ℚ) (invoice_max_age_days : Int) :
    Except PyError (String × List String) :=
  match parseOptDate dp id_fields.expira with
  | .error err => .error err
  | .ok exp_date =>
    match parseOptDate dp id_fields.factura_data with
    | .error err => .error err
    | .ok fdate =>
      let failures := ruleSegs pyF id_fields inv_fields ci_laplacian_var
        lap_threshold today invoice_max_age_days exp_date fdate
      .ok (if failures.isEmpty then "KYC_VALID" else "KYC_INVALID", failures)

/-- The `i`-th decimal digit of `s` (0 outside the string), used to state
claim C6 the way the spec words it. -/
def cnpDigit (s : String) (i : Nat) : Nat := (s.data.getD i '0').toNat - 48

/-- Claim C6's contract for `isValidIdentityNumber`, following the spec's
words: `s` is exactly 13 decimal digits, and its 13th digit equals the
check digit `r = (Σ digit[i]·weight[i], i in 0..11) mod 11` with weights
`[2,7,9,1,4,6,3,5,8,2,7,9]`, replaced by 1 when `r = 10`. -/
def cnpSpecValid (s : String) : Prop :=
  s.data.length = 13 ∧ (∀ c ∈ s.data, c.isDigit = true) ∧
  cnpDigit s 12 =
    (if (∑ i in Finset.range 12,
          cnpDigit s i * [2, 7, 9, 1, 4, 6, 3, 5, 8, 2, 7, 9].getD i 0) % 11 = 10
     then 1
     else (∑ i in Finset.range 12,
          cnpDigit s i * [2, 7, 9, 1, 4, 6, 3, 5, 8, 2, 7, 9].getD i 0) % 11)

instance {ε α : Type} [DecidableEq ε] [DecidableEq α] : DecidableEq (Except ε α) :=
  fun a b =>
    match a, b with
    | .error e, .error e' =>
      if h : e = e' then .isTrue (by rw [h]) else .isFalse (by simp [h])
    | .error _, .ok _ => .isFalse (by simp)
    | .ok _, .error _ => .isFalse (by simp)
    | .ok v, .ok v' =>
      if h : v = v' then .isTrue (by rw [h]) else .isFalse (by simp [h])

/-- All whitespace characters of `l` are plain spaces. -/
def spacesOk (l : List Char) : Prop :=
  ∀ c ∈ l, isPySpace c = true → c = ' '

/-- No two adjacent whitespace characters in `l`. -/
def noTwoSpaces (l : List Char) : Prop :=
  l.Chain' (fun a b => ¬(isPySpace a = true ∧ isPySpace b = true))

/-- `l` contains no line-break character. -/
def breakFree (l : List Char) : Prop :=
  ∀ c ∈ l, isLineBreak c = false

/-- The first character of `l`, if any, is not whitespace. -/
def headNoSpace (l : List Char) : Prop :=
  ∀ c, l.head? = some c → isPySpace c = false

/-- The last character of `l`, if any, is not whitespace. -/
def lastNoSpace (l : List Char) : Prop :=
  ∀ c, l.getLast? = some c → isPySpace c = false

/-! # Theorems

General lemmas first, then one theorem per claim (with witnesses where the
theorem has hypotheses). -/

theorem isPySpace_of_isLineBreak {c : Char} (h : isLineBreak c = true) :
    isPySpace c = true := by
  simp only [isLineBreak, decide_eq_true_eq, List.mem_cons, List.not_mem_nil,
    or_false] at h
  simp only [isPySpace, decide_eq_true_eq, List.mem_cons, List.not_mem_nil,
    or_false]
  omega

theorem getD_map_digit (l : List Char) (i : Nat) :
    (l.map (fun c => c.toNat - 48)).getD i 0 = (l.getD i '0').toNat - 48 := by
  induction l generalizing i with
  | nil => simp [List.getD]
  | cons c cs ih =>
    cases i with
    | zero => simp [List.getD]
    | succ j => simpa [List.getD] using ih j

theorem zipWith_mul_sum (ds ws : List Nat) :
    (List.zipWith (fun a b => a * b) ds ws).sum
      = ∑ i in Finset.range (min ds.length ws.length), ds.getD i 0 * ws.getD i 0 := by
  induction ds generalizing ws with
  | nil => simp
  | cons d ds ih =>
    cases ws with
    | nil => simp
    | cons w ws =>
      have hmin : min (ds.length + 1) (ws.length + 1) = min ds.length ws.length + 1 := by
        omega
      rw [List.zipWith_cons_cons, List.sum_cons, ih ws, List.length_cons,
        List.length_cons, hmin, Finset.sum_range_succ']
      simp only [List.getD_cons_succ, List.getD_cons_zero]
      exact Nat.add_comm _ _

/-! ## Lemmas on `subWs` (whitespace-run collapsing) -/

theorem subWsAux_spaces (l : List Char) : ∀ (b : Bool), spacesOk (subWsAux b l) := by
  induction l with
  | nil => intro b c hc; cases b <;> simp [subWsAux] at hc
  | cons c cs ih =>
    intro b d hd hsp
    by_cases hc : isPySpace c = true
    · cases b with
      | true =>
        rw [subWsAux, if_pos hc] at hd
        exact ih true d hd hsp
      | false =>
        rw [subWsAux, if_pos hc, List.mem_cons] at hd
        rcases hd with rfl | hd
        · rfl
        · exact ih true d hd hsp
    · cases b with
      | true =>
        rw [subWsAux, if_neg hc, List.mem_cons] at hd
        rcases hd with rfl | hd
        · exact absurd hsp hc
        · exact ih false d hd hsp
      | false =>
        rw [subWsAux, if_neg hc, List.mem_cons] at hd
        rcases hd with rfl | hd
        · exact absurd hsp hc
        · exact ih false d hd hsp

theorem subWsAux_head_true (l : List Char) :
    headNoSpace (subWsAux true l) := by
  induction l with
  | nil => intro c hc; simp [subWsAux] at hc
  | cons c cs ih =>
    intro d hd
    by_cases hc : isPySpace c = true
    · rw [subWsAux, if_pos hc] at hd
      exact ih d hd
    · rw [subWsAux, if_neg hc, List.head?_cons, Option.some.injEq] at hd
      rw [← hd]
      exact Bool.eq_false_iff.mpr hc

theorem subWsAux_chain (l : List Char) : ∀ (b : Bool), noTwoSpaces (subWsAux b l) := by
  induction l with
  | nil => intro b; cases b <;> simp [subWsAux, noTwoSpaces]
  | cons c cs ih =>
    intro b
    by_cases hc : isPySpace c = true
    · cases b with
      | true =>
        rw [subWsAux, if_pos hc]
        exact ih true
      | false =>
        rw [subWsAux, if_pos hc, noTwoSpaces, List.chain'_cons']
        refine ⟨?_, ih true⟩
        intro y hy
        have := subWsAux_head_true cs y hy
        simp [this]
    · cases b with
      | true =>
        rw [subWsAux, if_neg hc, noTwoSpaces, List.chain'_cons']
        refine ⟨?_, ih false⟩
        intro y _
        simp [hc]
      | false =>
        rw [subWsAux, if_neg hc, noTwoSpaces, List.chain'_cons']
        refine ⟨?_, ih false⟩
        intro y _
        simp [hc]

theorem filter_ns_cons_pos {a : Char} (l : List Char) (h : isPySpace a = false) :
    (a :: l).filter (fun c => !isPySpace c) = a :: l.filter (fun c => !isPySpace c) := by
  simp [List.filter_cons, h]

theorem filter_ns_cons_neg {a : Char} (l : List Char) (h : isPySpace a = true) :
    (a :: l).filter (fun c => !isPySpace c) = l.filter (fun c => !isPySpace c) := by
  simp [List.filter_cons, h]

theorem subWsAux_filter (l : List Char) : ∀ (b : Bool),
    (subWsAux b l).filter (fun c => !isPySpace c)
      = l.filter (fun c => !isPySpace c) := by
  induction l with
  | nil => intro b; cases b <;> rfl
  | cons c cs ih =>
    intro b
    by_cases hc : isPySpace c = true
    · cases b with
      | true =>
        rw [subWsAux, if_pos hc, ih true, filter_ns_cons_neg _ hc]
      | false =>
        rw [subWsAux, if_pos hc, filter_ns_cons_neg _ (by decide), ih true,
          filter_ns_cons_neg _ hc]
    · have hc' : isPySpace c = false := Bool.eq_false_iff.mpr hc
      cases b with
      | true =>
        rw [subWsAux, if_neg hc, filter_ns_cons_pos _ hc',
          filter_ns_cons_pos _ hc', ih false]
      | false =>
        rw [subWsAux, if_neg hc, filter_ns_cons_pos _ hc',
          filter_ns_cons_pos _ hc', ih false]

theorem subWsAux_eq_self (l : List Char) (hsp : spacesOk l) (hch : noTwoSpaces l) :
    subWsAux false l = l ∧ (headNoSpace l → subWsAux true l = l) := by
  induction l with
  | nil => exact ⟨rfl, fun _ => rfl⟩
  | cons c cs ih =>
    have hsp' : spacesOk cs := fun d hd => hsp d (List.mem_cons_of_mem c hd)
    have hch' : noTwoSpaces cs := List.Chain'.tail hch
    obtain ⟨ih1, ih2⟩ := ih hsp' hch'
    by_cases hc : isPySpace c = true
    · have hcsp : c = ' ' := hsp c (List.mem_cons_self c cs) hc
      have hhead : headNoSpace cs := by
        intro y hy
        have hr := (List.chain'_cons'.mp hch).1 y hy
        by_cases hys : isPySpace y = true
        · exact absurd ⟨hc, hys⟩ hr
        · exact Bool.eq_false_iff.mpr hys
      constructor
      · rw [subWsAux, if_pos hc, ih2 hhead, hcsp]
      · intro hhd
        have := hhd c List.head?_cons
        rw [hc] at this
        cases this
    · constructor
      · rw [subWsAux, if_neg hc, ih1]
      · intro _
        rw [subWsAux, if_neg hc, ih1]

/-! ## Lemmas on `pyStrip` -/

theorem dropWhile_head_not {p : Char → Bool} (l : List Char) :
    ∀ c, (l.dropWhile p).head? = some c → p c = false := by
  induction l with
  | nil => intro c hc; simp [List.dropWhile] at hc
  | cons a l ih =>
    intro c hc
    by_cases ha : p a = true
    · rw [List.dropWhile_cons_of_pos ha] at hc
      exact ih c hc
    · rw [List.dropWhile_cons_of_neg ha, List.head?_cons, Option.some.injEq] at hc
      rw [← hc]
      exact Bool.eq_false_iff.mpr ha

theorem dropWhile_eq_self {p : Char → Bool} (l : List Char)
    (h : ∀ c, l.head? = some c → p c = false) : l.dropWhile p = l := by
  cases l with
  | nil => rfl
  | cons a l =>
    have ha := h a List.head?_cons
    rw [List.dropWhile_cons_of_neg (by rw [ha]; exact Bool.false_ne_true)]

theorem dropWhile_filter (l : List Char) :
    (l.dropWhile isPySpace).filter (fun c => !isPySpace c)
      = l.filter (fun c => !isPySpace c) := by
  induction l with
  | nil => rfl
  | cons a l ih =>
    by_cases ha : isPySpace a = true
    · rw [List.dropWhile_cons_of_pos ha, ih, filter_ns_cons_neg _ ha]
    · rw [List.dropWhile_cons_of_neg ha]

theorem stripEnd_filter (l : List Char) :
    (stripEnd l).filter (fun c => !isPySpace c)
      = l.filter (fun c => !isPySpace c) := by
  induction l with
  | nil => rfl
  | cons c cs ih =>
    cases hs : stripEnd cs with
    | nil =>
      have hfe : cs.filter (fun c => !isPySpace c) = [] := by
        rw [← ih, hs, List.filter_nil]
      by_cases hc : isPySpace c = true
      · rw [stripEnd, hs, if_pos hc, List.filter_nil, filter_ns_cons_neg _ hc, hfe]
      · have hc' : isPySpace c = false := Bool.eq_false_iff.mpr hc
        rw [stripEnd, hs, if_neg hc, filter_ns_cons_pos _ hc',
          filter_ns_cons_pos _ hc', List.filter_nil, hfe]
    | cons r rs =>
      have hm : (r :: rs).filter (fun c => !isPySpace c)
          = cs.filter (fun c => !isPySpace c) := by rw [← hs, ih]
      have hse : stripEnd (c :: cs) = c :: r :: rs := by rw [stripEnd, hs]
      by_cases hc : isPySpace c = true
      · rw [hse, filter_ns_cons_neg _ hc, filter_ns_cons_neg _ hc, hm]
      · have hc' : isPySpace c = false := Bool.eq_false_iff.mpr hc
        rw [hse, filter_ns_cons_pos _ hc', filter_ns_cons_pos _ hc', hm]

theorem stripEnd_head (l : List Char) (hne : stripEnd l ≠ []) :
    (stripEnd l).head? = l.head? := by
  cases l with
  | nil => rfl
  | cons c cs =>
    cases hs : stripEnd cs with
    | nil =>
      rw [stripEnd, hs] at hne ⊢
      by_cases hc : isPySpace c = true
      · rw [if_pos hc] at hne; exact absurd rfl hne
      · rw [if_neg hc]; rfl
    | cons r rs => rw [stripEnd, hs]; rfl

theorem stripEnd_last (l : List Char) : lastNoSpace (stripEnd l) := by
  induction l with
  | nil => intro c hc; simp [stripEnd] at hc
  | cons c cs ih =>
    intro x hx
    cases hs : stripEnd cs with
    | nil =>
      rw [stripEnd, hs] at hx
      by_cases hc : isPySpace c = true
      · rw [if_pos hc] at hx; simp at hx
      · rw [if_neg hc] at hx
        simp only [List.getLast?_singleton, Option.some.injEq] at hx
        rw [← hx]
        exact Bool.eq_false_iff.mpr hc
    | cons r rs =>
      rw [stripEnd, hs, List.getLast?_cons_cons] at hx
      rw [hs] at ih
      exact ih x hx

theorem stripEnd_eq_self (l : List Char) (h : lastNoSpace l) : stripEnd l = l := by
  induction l with
  | nil => rfl
  | cons c cs ih =>
    cases cs with
    | nil =>
      have hc := h c (by simp)
      rw [stripEnd, stripEnd, if_neg (by rw [hc]; exact Bool.false_ne_true)]
    | cons d ds =>
      have h' : lastNoSpace (d :: ds) := by
        intro x hx
        exact h x (by rw [List.getLast?_cons_cons]; exact hx)
      have hr := ih h'
      rw [stripEnd, hr]

theorem stripEnd_chain {R : Char → Char → Prop} (l : List Char)
    (h : l.Chain' R) : (stripEnd l).Chain' R := by
  induction l with
  | nil => simpa [stripEnd]
  | cons c cs ih =>
    have h' := List.Chain'.tail h
    cases hs : stripEnd cs with
    | nil =>
      rw [stripEnd, hs]
      by_cases hc : isPySpace c = true
      · rw [if_pos hc]; exact List.chain'_nil
      · rw [if_neg hc]; exact List.chain'_singleton c
    | cons r rs =>
      rw [stripEnd, hs, List.chain'_cons']
      constructor
      · intro y hy
        have hne : stripEnd cs ≠ [] := by rw [hs]; exact List.cons_ne_nil r rs
        have hh := stripEnd_head cs hne
        rw [hs] at hh
        rw [hh] at hy
        cases cs with
        | nil => simp at hy
        | cons d ds => exact (List.chain'_cons'.mp h).1 y hy
      · rw [← hs]
        exact ih h'

theorem chain'_dropWhile {R : Char → Char → Prop} {p : Char → Bool} (l : List Char)
    (h : l.Chain' R) : (l.dropWhile p).Chain' R := by
  induction l with
  | nil => simpa
  | cons a l ih =>
    by_cases ha : p a = true
    · rw [List.dropWhile_cons_of_pos ha]
      exact ih (List.Chain'.tail h)
    · rw [List.dropWhile_cons_of_neg ha]
      exact h

theorem pyStrip_filter (l : List Char) :
    (pyStrip l).filter (fun c => !isPySpace c) = l.filter (fun c => !isPySpace c) := by
  rw [pyStrip, stripEnd_filter, dropWhile_filter]

theorem pyStrip_head (l : List Char) : headNoSpace (pyStrip l) := by
  intro c hc
  have hne : pyStrip l ≠ [] := by
    intro h0
    rw [h0] at hc
    simp at hc
  rw [pyStrip] at hne hc
  rw [stripEnd_head _ hne] at hc
  exact dropWhile_head_not l c hc

theorem pyStrip_last (l : List Char) : lastNoSpace (pyStrip l) :=
  stripEnd_last _

theorem pyStrip_eq_self (l : List Char) (h1 : headNoSpace l) (h2 : lastNoSpace l) :
    pyStrip l = l := by
  rw [pyStrip, dropWhile_eq_self l h1, stripEnd_eq_self l h2]

theorem stripEnd_mem {c : Char} {l : List Char} (h : c ∈ stripEnd l) : c ∈ l := by
  induction l with
  | nil => simpa [stripEnd] using h
  | cons a l ih =>
    cases hs : stripEnd l with
    | nil =>
      rw [stripEnd, hs] at h
      by_cases ha : isPySpace a = true
      · rw [if_pos ha] at h; simp at h
      · rw [if_neg ha] at h
        rw [List.mem_singleton] at h
        exact h ▸ List.mem_cons_self a l
    | cons r rs =>
      rw [stripEnd, hs] at h
      rcases List.mem_cons.mp h with rfl | h
      · exact List.mem_cons_self c l
      · exact List.mem_cons_of_mem a (ih (hs ▸ h))

theorem pyStrip_mem {c : Char} {l : List Char} (h : c ∈ pyStrip l) : c ∈ l :=
  (List.dropWhile_sublist _).subset (stripEnd_mem h)

theorem pyStrip_spaces (l : List Char) (h : spacesOk l) : spacesOk (pyStrip l) :=
  fun c hc hsp => h c (pyStrip_mem hc) hsp

theorem pyStrip_chain {R : Char → Char → Prop} (l : List Char) (h : l.Chain' R) :
    (pyStrip l).Chain' R :=
  stripEnd_chain _ (chain'_dropWhile l h)

/-! ## Lemmas on `pySplitlines` and `joinN` -/

theorem pySplitlines_cons_eq (c : Char) (cs : List Char) :
    pySplitlines (c :: cs) =
      if c = '\r' then
        match cs with
        | '\n' :: cs2 => [] :: pySplitlines cs2
        | [] => [[]]
        | d :: cs2 => [] :: pySplitlines (d :: cs2)
      else if isLineBreak c = true then [] :: pySplitlines cs
      else match pySplitlines cs with
        | [] => [[c]]
        | l :: ls => (c :: l) :: ls := by
  rw [pySplitlines.eq_def]

theorem pySplitlines_single (l : List Char) (hbf : breakFree l) (hne : l ≠ []) :
    pySplitlines l = [l] := by
  induction l with
  | nil => exact absurd rfl hne
  | cons c cs ih =>
    have hc : isLineBreak c = false := hbf c (List.mem_cons_self c cs)
    have hcr : ¬(c = '\r') := by
      intro h
      rw [h] at hc
      exact absurd hc (by decide)
    have hcP : ¬(isLineBreak c = true) := by
      rw [hc]
      exact Bool.false_ne_true
    rw [pySplitlines_cons_eq, if_neg hcr, if_neg hcP]
    cases cs with
    | nil => rfl
    | cons d ds =>
      have hbf' : breakFree (d :: ds) := fun x hx => hbf x (List.mem_cons_of_mem c hx)
      rw [ih hbf' (List.cons_ne_nil d ds)]

theorem pySplitlines_append (l t : List Char) (hbf : breakFree l) :
    pySplitlines (l ++ '\n' :: t) = l :: pySplitlines t := by
  induction l with
  | nil =>
    rw [List.nil_append, pySplitlines_cons_eq, if_neg (by decide),
      if_pos (by decide)]
  | cons c cs ih =>
    have hc : isLineBreak c = false := hbf c (List.mem_cons_self c cs)
    have hcr : ¬(c = '\r') := by
      intro h
      rw [h] at hc
      exact absurd hc (by decide)
    have hcP : ¬(isLineBreak c = true) := by
      rw [hc]
      exact Bool.false_ne_true
    have hbf' : breakFree cs := fun x hx => hbf x (List.mem_cons_of_mem c hx)
    rw [List.cons_append, pySplitlines_cons_eq, if_neg hcr, if_neg hcP, ih hbf']

theorem pySplitlines_joinN (ls : List (List Char))
    (h : ∀ m ∈ ls, breakFree m ∧ m ≠ []) :
    pySplitlines (joinN ls) = ls := by
  induction ls with
  | nil => rfl
  | cons m ms ih =>
    obtain ⟨hbf, hne⟩ := h m (List.mem_cons_self m ms)
    cases ms with
    | nil =>
      have hj : joinN [m] = m := rfl
      rw [hj]
      exact pySplitlines_single m hbf hne
    | cons m2 ms2 =>
      have hj : joinN (m :: m2 :: ms2) = m ++ '\n' :: joinN (m2 :: ms2) := rfl
      rw [hj, pySplitlines_append _ _ hbf,
        ih (fun x hx => h x (List.mem_cons_of_mem m hx))]

/-! ## The normalized lines are fixed points of the per-line normalization -/

theorem normLine_fix (l : List Char)
    (hne : l.filter (fun c => !isPySpace c) ≠ []) :
    breakFree (pyStrip (subWs l)) ∧ pyStrip (subWs l) ≠ [] ∧
    pyStrip (pyStrip (subWs l)) = pyStrip (subWs l) ∧
    subWs (pyStrip (subWs l)) = pyStrip (subWs l) := by
  have hsp : spacesOk (pyStrip (subWs l)) :=
    pyStrip_spaces _ (subWsAux_spaces l false)
  have hch : noTwoSpaces (pyStrip (subWs l)) :=
    pyStrip_chain _ (subWsAux_chain l false)
  have hhead : headNoSpace (pyStrip (subWs l)) := pyStrip_head _
  have hlast : lastNoSpace (pyStrip (subWs l)) := pyStrip_last _
  refine ⟨?_, ?_, ?_, ?_⟩
  · intro c hc
    by_cases hb : isLineBreak c = true
    · have hsame := hsp c hc (isPySpace_of_isLineBreak hb)
      rw [hsame] at hb
      exact absurd hb (by decide)
    · exact Bool.eq_false_iff.mpr hb
  · intro h0
    have hfil : (pyStrip (subWs l)).filter (fun c => !isPySpace c)
        = l.filter (fun c => !isPySpace c) := by
      rw [pyStrip_filter]
      exact subWsAux_filter l false
    rw [h0, List.filter_nil] at hfil
    exact hne hfil.symm
  · exact pyStrip_eq_self _ hhead hlast
  · exact (subWsAux_eq_self _ hsp hch).1

/-- Idempotence of the whole whitespace pre-normalization. -/
theorem normLines_idem (cs : List Char) :
    normLines (joinN (normLines cs)) = normLines cs := by
  have hmem : ∀ m ∈ normLines cs,
      breakFree m ∧ m ≠ [] ∧ pyStrip m = m ∧ subWs m = m := by
    intro m hm
    rw [normLines, List.mem_map] at hm
    obtain ⟨l, hl, rfl⟩ := hm
    rw [List.mem_filter] at hl
    have hsne : pyStrip l ≠ [] := by
      intro h0
      rw [h0] at hl
      simp at hl
    have hne : l.filter (fun c => !isPySpace c) ≠ [] := by
      intro h0
      have hf := pyStrip_filter l
      rw [h0] at hf
      cases hsp : pyStrip l with
      | nil => exact hsne hsp
      | cons a as =>
        have ha : isPySpace a = false := by
          have := pyStrip_head l
          rw [hsp] at this
          exact this a List.head?_cons
        rw [hsp] at hf
        rw [filter_ns_cons_pos as ha] at hf
        exact List.cons_ne_nil _ _ hf
    obtain ⟨h1, h2, h3, h4⟩ := normLine_fix l hne
    refine ⟨h1, h2, ?_, h4⟩
    exact h3
  have hsplit : pySplitlines (joinN (normLines cs)) = normLines cs :=
    pySplitlines_joinN _ (fun m hm => ⟨(hmem m hm).1, (hmem m hm).2.1⟩)
  conv_lhs => rw [normLines]
  rw [hsplit]
  have hfilter : (normLines cs).filter (fun l => !(pyStrip l).isEmpty)
      = normLines cs := by
    rw [List.filter_eq_self]
    intro m hm
    obtain ⟨-, h2, h3, -⟩ := hmem m hm
    rw [h3]
    cases m with
    | nil => exact absurd rfl h2
    | cons a as => rfl
  rw [hfilter]
  have hmap : (normLines cs).map (fun l => pyStrip (subWs l))
      = (normLines cs).map id := by
    refine List.map_congr_left ?_
    intro m hm
    obtain ⟨-, -, h3, h4⟩ := hmem m hm
    rw [h4, h3]
    rfl
  rw [hmap, List.map_id]

theorem mem_ite_singleton {c : Prop} [Decidable c] {r x : String} :
    (x ∈ if c then [r] else []) ↔ c ∧ x = r := by
  by_cases h : c <;> simp [h]

theorem mem_ite_nil_singleton {c : Prop} [Decidable c] {r x : String} :
    (x ∈ if c then [] else [r]) ↔ ¬c ∧ x = r := by
  by_cases h : c <;> simp [h]

theorem ite_singleton_sublist {c : Prop} [Decidable c] {r : String} :
    (if c then [r] else []).Sublist [r] := by
  by_cases h : c <;> simp [h]

theorem ite_nil_singleton_sublist {c : Prop} [Decidable c] {r : String} :
    (if c then [] else [r]).Sublist [r] := by
  by_cases h : c <;> simp [h]

/-- The failure list accumulated by the rule evaluator is always a
subsequence of the six reasons in rule order. -/
theorem ruleSegs_sublist (pyF : String → Option ℚ) (idf : IdDict) (invf : InvDict)
    (sharp thr : ℚ) (today maxAge : Int) (e fd : Option Int) :
    (ruleSegs pyF idf invf sharp thr today maxAge e fd).Sublist kycReasons := by
  unfold ruleSegs kycReasons
  simp only [List.append_assoc]
  refine List.Sublist.append ite_singleton_sublist ?_
  refine List.Sublist.append ite_nil_singleton_sublist ?_
  refine List.Sublist.append ite_singleton_sublist ?_
  refine List.Sublist.append ite_singleton_sublist ?_
  exact List.Sublist.append ite_singleton_sublist ite_singleton_sublist

/-- Membership in the accumulated failure list, rule by rule. -/
theorem mem_ruleSegs (pyF : String → Option ℚ) (idf : IdDict) (invf : InvDict)
    (sharp thr : ℚ) (today maxAge : Int) (e fd : Option Int) (x : String) :
    (x ∈ ruleSegs pyF idf invf sharp thr today maxAge e fd) ↔
      (sharp < thr ∧ x = "image_blurry") ∨
      (¬(valid_cnp_opt idf.cnp = true) ∧ x = "invalid cnp") ∨
      (pyFalsyOrLt e today = true ∧ x = "id_expired") ∨
      (tooOldB fd today maxAge = true ∧ x = "Factura_veche") ∨
      (nonPosB (pyF (pyReplaceStr "," "." (invf.total.getD "0"))) = true
        ∧ x = "non_positive_total") ∨
      ((invf.factura_numar.isNone || invf.factura_data.isNone || invf.total.isNone) = true
        ∧ x = "missing_requiered") := by
  unfold ruleSegs
  simp only [List.mem_append, mem_ite_singleton, mem_ite_nil_singleton, or_assoc]

/-- Deconstruction of a normal return of `validate_kyc`: both date parses
succeeded, the failures are `ruleSegs`, and the status is determined by
their emptiness. -/
theorem validate_kyc_ok_elim {dp : String → Option Int} {pyF : String → Option ℚ}
    {idf : IdDict} {invf : InvDict} {sharp thr : ℚ} {today maxAge : Int}
    {st : String} {fs : List String}
    (hOk : validate_kyc dp pyF idf invf sharp today thr maxAge = .ok (st, fs)) :
    ∃ e fd, parseOptDate dp idf.expira = .ok e ∧
      parseOptDate dp idf.factura_data = .ok fd ∧
      fs = ruleSegs pyF idf invf sharp thr today maxAge e fd ∧
      st = (if fs.isEmpty then "KYC_VALID" else "KYC_INVALID") := by
  unfold validate_kyc at hOk
  cases hE : parseOptDate dp idf.expira with
  | error err => rw [hE] at hOk; exact absurd hOk (by simp)
  | ok e =>
    rw [hE] at hOk
    cases hF : parseOptDate dp idf.factura_data with
    | error err => rw [hF] at hOk; exact absurd hOk (by simp)
    | ok fd =>
      rw [hF] at hOk
      have h2 := Except.ok.inj hOk
      have hfs : fs = ruleSegs pyF idf invf sharp thr today maxAge e fd :=
        (congrArg Prod.snd h2).symm
      refine ⟨e, fd, rfl, rfl, hfs, ?_⟩
      have hst := (congrArg Prod.fst h2).symm
      rw [hfs]
      exact hst

/-- The verdict string as a function of the failure list's emptiness. -/
theorem status_iff (L : List String) :
    ((if L.isEmpty then "KYC_VALID" else "KYC_INVALID") = "KYC_INVALID" ↔ L ≠ []) ∧
    ((if L.isEmpty then "KYC_VALID" else "KYC_INVALID") = "KYC_VALID" ↔ L = []) := by
  cases L <;> simp

/-! ## Claims C1 – C5 (defects of the source evaluated at concrete inputs) -/

/-- C1: the `InvoiceTooOld` rule must depend only on the invoice field
mapping's issue date.  The code instead reads `id_fields.get("factura_data")`:
with a fresh invoice issue date (equal to the reference date 100, so
`referenceDate − issueDate = 0 ≤ 90 = invoiceMaxAgeDays`) carried by the
invoice mapping, and every other rule passing, `"Factura_veche"` is still
appended — because the identity mapping has no `"factura_data"` key. -/
theorem invoiceTooOld_reads_identity_mapping :
    validate_kyc
      (fun s => if s = "E" then some 200 else if s = "D" then some 100 else none)
      (fun s => if s = "5" then some (5 : ℚ) else none)
      { cnp := some "1111111111118", expira := some "E" }
      { factura_numar := some "F1", factura_data := some "D", total := some "5" }
      100 100 80 90
      = .ok ("KYC_INVALID", ["Factura_veche"]) := by decide

/-- C2: on the invoice text `"Total: 120,50"` the code stores the
**label** `"Total"` (group 1 of the total pattern, further untouched by
`.replace(", ", ".")`) as the total-amount field, not the numeric token
`"120.50"` required by the claim. -/
theorem total_field_stores_label :
    parse_invoice_text_native (fun _ => none) (fun _ => "") "Total: 120,50"
      = { total := some "Total" } := by decide

/-- C3: `validate` does not return a result on every input: an identity
mapping whose expiry-date string is present but unparsable makes
`dateparser.parse` return `None`, and the call `.date()` on it raises
`AttributeError`, which escapes `validate_kyc`. -/
theorem validate_raises_on_unparsable_expiry :
    validate_kyc (fun _ => none) (fun _ => none)
      { expira := some "garbage" } {} 100 0 80 90
      = .error .attributeError := by decide

/-- C4: the name label is **not** found when it occurs on any line other
than the first: the misindented `return out` exits the line loop after
the first non-blank line, so `"X\nNUME: ION"` yields a mapping with no
`nume` key (the claim requires `nume = "ION"`). -/
theorem nume_label_on_second_line_ignored :
    parse_id_text (fun _ => none) (fun _ => "") "X\nNUME: ION"
      = .ok (some {}) := by decide

/-- C5: on the empty string the line loop never runs and `parse_id_text`
falls off its end, returning Python `None` (modelled `Option.none`) — not
the empty field mapping the claim requires. -/
theorem parse_id_text_empty_returns_none :
    parse_id_text (fun _ => none) (fun _ => "") "" = .ok none := by decide

/-! ## Claim C6: the checksum validator -/

/-- C6: `valid_cnp` accepts exactly the strings the claim describes — 13
decimal digits whose 13th digit is the weighted-sum check digit (with
`r = 10` mapped to 1); everything else (wrong length, non-digits, empty)
is rejected. -/
theorem valid_cnp_iff_spec (s : String) : valid_cnp s = true ↔ cnpSpecValid s := by
  by_cases h : s.data.length = 13 ∧ s.data.all Char.isDigit
  · have hall : ∀ c ∈ s.data, c.isDigit = true := List.all_eq_true.mp h.2
    have hsum : (List.zipWith (fun a b => a * b)
          (s.data.map (fun c => c.toNat - 48)) cnpConst).sum
        = ∑ i in Finset.range 12,
            cnpDigit s i * [2, 7, 9, 1, 4, 6, 3, 5, 8, 2, 7, 9].getD i 0 := by
      rw [zipWith_mul_sum]
      have hlen : min (s.data.map (fun c => c.toNat - 48)).length cnpConst.length = 12 := by
        simp [h.1, cnpConst]
      rw [hlen]
      refine Finset.sum_congr rfl (fun i _ => ?_)
      rw [getD_map_digit]
      rfl
    have hd12 : (s.data.map (fun c => c.toNat - 48)).getD 12 0 = cnpDigit s 12 := by
      rw [getD_map_digit]; rfl
    unfold valid_cnp
    rw [if_pos h]
    simp only [decide_eq_true_eq]
    rw [hsum, hd12]
    unfold cnpSpecValid
    constructor
    · intro hck
      exact ⟨h.1, hall, hck.symm⟩
    · intro hck
      exact hck.2.2.symm
  · have hv : valid_cnp s = false := by
      unfold valid_cnp
      rw [if_neg h]
    rw [hv]
    simp only [Bool.false_eq_true, false_iff]
    intro hspec
    exact h ⟨hspec.1, List.all_eq_true.mpr hspec.2.1⟩

/-! ## Claims C7, C8, C10: the rule evaluator -/

/-- C7: whenever `validate` returns (i.e. both `dateparser` calls produce
a value, `hE`/`hF`), the failure list is a subsequence of the six reasons
in rule order — so it is ordered by rule number — each reason is present
exactly when its rule's condition fails (no short-circuiting), and the
status is `KYC_INVALID` exactly when the list is non-empty. -/
theorem validate_rule_order (dp : String → Option Int) (pyF : String → Option ℚ)
    (idf : IdDict) (invf : InvDict) (sharp today thr maxAge)
    (e fd : Option Int) (st : String) (fs : List String)
    (hE : parseOptDate dp idf.expira = .ok e)
    (hF : parseOptDate dp idf.factura_data = .ok fd)
    (hOk : validate_kyc dp pyF idf invf sharp today thr maxAge = .ok (st, fs)) :
    fs.Sublist kycReasons ∧
    (st = "KYC_INVALID" ↔ fs ≠ []) ∧
    (st = "KYC_VALID" ↔ fs = []) ∧
    ("image_blurry" ∈ fs ↔ sharp < thr) ∧
    ("invalid cnp" ∈ fs ↔ valid_cnp_opt idf.cnp = false) ∧
    ("id_expired" ∈ fs ↔ pyFalsyOrLt e today = true) ∧
    ("Factura_veche" ∈ fs ↔ tooOldB fd today maxAge = true) ∧
    ("non_positive_total" ∈ fs
      ↔ nonPosB (pyF (pyReplaceStr "," "." (invf.total.getD "0"))) = true) ∧
    ("missing_requiered" ∈ fs
      ↔ (invf.factura_numar.isNone || invf.factura_data.isNone || invf.total.isNone)
          = true) := by
  unfold validate_kyc at hOk
  rw [hE, hF] at hOk
  have h2 := Except.ok.inj hOk
  have hfs : fs = ruleSegs pyF idf invf sharp thr today maxAge e fd :=
    (congrArg Prod.snd h2).symm
  have hst : st = (if fs.isEmpty then "KYC_VALID" else "KYC_INVALID") := by
    rw [hfs]
    exact (congrArg Prod.fst h2).symm
  subst hfs
  subst hst
  refine ⟨ruleSegs_sublist pyF idf invf sharp thr today maxAge e fd,
    (status_iff _).1, (status_iff _).2, ?_, ?_, ?_, ?_, ?_, ?_⟩ <;>
    rw [mem_ruleSegs] <;> simp [Bool.not_eq_true]

/-- C7's witness: a fully valid concrete run returns `KYC_VALID` with an
empty failure list, every rule-membership equivalence holding. -/
theorem validate_rule_order_witness :
    ([] : List String).Sublist kycReasons ∧
    (("KYC_VALID" : String) = "KYC_INVALID" ↔ ([] : List String) ≠ []) ∧
    (("KYC_VALID" : String) = "KYC_VALID" ↔ ([] : List String) = []) ∧
    ("image_blurry" ∈ ([] : List String) ↔ (100 : ℚ) < 80) ∧
    ("invalid cnp" ∈ ([] : List String)
      ↔ valid_cnp_opt (some "1111111111118") = false) ∧
    ("id_expired" ∈ ([] : List String) ↔ pyFalsyOrLt (some 200) 100 = true) ∧
    ("Factura_veche" ∈ ([] : List String) ↔ tooOldB (some 100) 100 90 = true) ∧
    ("non_positive_total" ∈ ([] : List String)
      ↔ nonPosB ((fun s => if s = "5" then some (5 : ℚ) else none)
          (pyReplaceStr "," "." ((some "5" : Option String).getD "0"))) = true) ∧
    ("missing_requiered" ∈ ([] : List String)
      ↔ ((some "F1" : Option String).isNone || (some "X" : Option String).isNone
          || (some "5" : Option String).isNone) = true) :=
  validate_rule_order
    (fun s => if s = "E" then some 200 else if s = "D" then some 100 else none)
    (fun s => if s = "5" then some (5 : ℚ) else none)
    { cnp := some "1111111111118", expira := some "E", factura_data := some "D" }
    { factura_numar := some "F1", factura_data := some "X", total := some "5" }
    100 100 80 90 (some 200) (some 100) "KYC_VALID" []
    (by decide) (by decide) (by decide)

/-- C8: whenever `validate` returns, the `NonPositiveTotal` reason is in
the failure list exactly when the total is absent (the code then converts
the default `0`), present but non-numeric after comma normalization (the
conversion error is caught, not propagated), or parses to a value `≤ 0`.
The hypothesis `hF0` pins the only fact needed about the external
`float` conversion: `float("0") = 0.0`. -/
theorem nonPositiveTotal_iff (dp : String → Option Int) (pyF : String → Option ℚ)
    (idf : IdDict) (invf : InvDict) (sharp today thr maxAge)
    (st : String) (fs : List String)
    (hOk : validate_kyc dp pyF idf invf sharp today thr maxAge = .ok (st, fs))
    (hF0 : pyF "0" = some 0) :
    ("non_positive_total" ∈ fs ↔
      invf.total = none ∨
      ∃ s, invf.total = some s ∧
        (pyF (pyReplaceStr "," "." s) = none ∨
         ∃ v, pyF (pyReplaceStr "," "." s) = some v ∧ v ≤ 0)) := by
  obtain ⟨e, fd, -, -, hfs, -⟩ := validate_kyc_ok_elim hOk
  subst hfs
  rw [mem_ruleSegs]
  simp only [String.reduceEq, and_false, and_true, false_or, or_false]
  cases htot : invf.total with
  | none =>
    have hrep : pyReplaceStr "," "." ((none : Option String).getD "0") = "0" := by decide
    rw [hrep, hF0]
    simp [nonPosB]
  | some s =>
    simp only [Option.getD_some]
    cases hq : pyF (pyReplaceStr "," "." s) with
    | none => simp [nonPosB, hq]
    | some v =>
      simp only [nonPosB, hq, decide_eq_true_eq, Option.some.injEq]
      constructor
      · intro hv
        exact Or.inr ⟨s, rfl, Or.inr ⟨v, hq, hv⟩⟩
      · rintro (hnone | ⟨s', rfl, hrest | ⟨v', hv', hle⟩⟩)
        · exact absurd hnone (by simp)
        · rw [hq] at hrest
          exact absurd hrest (by simp)
        · rw [hq, Option.some.injEq] at hv'
          subst hv'
          exact hle

/-- C8's witness: the spec's boundary scenario D — total `"0,00"`,
normalized to `"0.00"`, parsing to `0` — fires `non_positive_total` in a
normal (non-raising) run. -/
theorem nonPositiveTotal_iff_witness :
    ("non_positive_total" ∈ ["invalid cnp", "id_expired", "Factura_veche",
        "non_positive_total", "missing_requiered"] ↔
      (some "0,00" : Option String) = none ∨
      ∃ s, (some "0,00" : Option String) = some s ∧
        ((fun t => if t = "0.00" ∨ t = "0" then some (0 : ℚ) else none)
            (pyReplaceStr "," "." s) = none ∨
         ∃ v, (fun t => if t = "0.00" ∨ t = "0" then some (0 : ℚ) else none)
            (pyReplaceStr "," "." s) = some v ∧ v ≤ 0)) :=
  nonPositiveTotal_iff (fun _ => none)
    (fun t => if t = "0.00" ∨ t = "0" then some (0 : ℚ) else none)
    {} { total := some "0,00" } 100 0 80 90
    "KYC_INVALID"
    ["invalid cnp", "id_expired", "Factura_veche", "non_positive_total",
     "missing_requiered"]
    (by decide) (by decide)

/-- C10: whenever `validate` returns, its failure list is a subsequence
of the six-reason sequence in rule order, hence has length at most 6 and
contains each reason (in particular `missing_requiered`) at most once. -/
theorem validate_failures_bounded (dp : String → Option Int) (pyF : String → Option ℚ)
    (idf : IdDict) (invf : InvDict) (sharp today thr maxAge)
    (st : String) (fs : List String)
    (hOk : validate_kyc dp pyF idf invf sharp today thr maxAge = .ok (st, fs)) :
    fs.Sublist kycReasons ∧ fs.length ≤ 6 ∧ ∀ r : String, fs.count r ≤ 1 := by
  obtain ⟨e, fd, -, -, hfs, -⟩ := validate_kyc_ok_elim hOk
  subst hfs
  have hsub := ruleSegs_sublist pyF idf invf sharp thr today maxAge e fd
  have hnd : (ruleSegs pyF idf invf sharp thr today maxAge e fd).Nodup :=
    (by decide : kycReasons.Nodup).sublist hsub
  refine ⟨hsub, ?_, List.nodup_iff_count_le_one.mp hnd⟩
  have := hsub.length_le
  simpa [kycReasons] using this

/-- C10's witness: the all-failing run produces exactly the six reasons,
once each. -/
theorem validate_failures_bounded_witness :
    kycReasons.Sublist kycReasons ∧ kycReasons.length ≤ 6 ∧
      ∀ r : String, kycReasons.count r ≤ 1 :=
  validate_failures_bounded (fun _ => none) (fun _ => none) {} {} 10 0 80 90
    "KYC_INVALID" kycReasons (by decide)

/-! ## Claim C9: idempotence of the invoice extractor's pre-normalization -/

/-- C9: running the invoice extractor on the already whitespace-normalized
text (runs collapsed, blank lines dropped, lines newline-joined) yields
exactly the field mapping obtained from the raw text, for every raw text
and every behaviour of the external date parser. -/
theorem extractInvoiceFields_idem (dp : String → Option Int) (iso : Int → String)
    (txt : String) :
    parse_invoice_text_native dp iso (normalizeInvoiceText txt)
      = parse_invoice_text_native dp iso txt := by
  unfold parse_invoice_text_native
  have h : (normalizeInvoiceText (normalizeInvoiceText txt)).data
      = (normalizeInvoiceText txt).data := by
    show joinN (normLines (joinN (normLines txt.data))) = joinN (normLines txt.data)
    rw [normLines_idem]
  rw [h]

end KYC
